import Mathlib

/-!
Shallow embedding of the `escaped` secret-hunting pipeline
(`escaped/workers/analyzer.py` and `escaped/config.py`), together with
theorems checking the natural-language specification against it.

External effects (redis, the filesystem, subprocesses, the rq queue) are
modelled as explicit inputs (oracles describing what each external call
returned) and as event traces describing what the code asked the outside
world to do.  Machine integers are modelled as `Int`/`Nat` (Python ints are
unbounded, so no wraparound is involved); durations carry jitter drawn from
`random.uniform` and are modelled as `ℚ`; raw bytes written to disk are
modelled as `String` payloads (the byte content is never inspected by the
code under study, only moved around).
-/

namespace Escaped

/-! ### Configuration constants (`escaped/config.py`, default values) -/

/-- Constant `GLOBAL_MAX_CONCURRENT_PIPELINES` (config.py line 5, default 10). -/
def GLOBAL_MAX_CONCURRENT_PIPELINES : Int := 10

/-- Constant `ANALYZER_REQUEUE_DELAY_SECONDS` (config.py line 9, default 120). -/
def ANALYZER_REQUEUE_DELAY_SECONDS : Int := 120

/-- Constant `MAX_CLONE_ATTEMPTS` (config.py line 41). -/
def MAX_CLONE_ATTEMPTS : Nat := 3

/-- Constant `CLONE_RETRY_DELAY_SECONDS` (config.py line 42). -/
def CLONE_RETRY_DELAY_SECONDS : ℚ := 60

/-- Constant `BASE_OUTPUT_DIR` (config.py line 23). -/
def BASE_OUTPUT_DIR : String := "analysis_output"

/-- Constant `GIT_CLONE_PATH = os.path.join(BASE_OUTPUT_DIR, "cloned_repos")` (config.py line 24). -/
def GIT_CLONE_PATH : String := BASE_OUTPUT_DIR ++ "/cloned_repos"

/-! ### Python string primitives

The analyzer manipulates strings through Python `str` methods.  The helpers
below model those methods over `List Char` / `String` so that every
definition is executable by the kernel. -/

/-- Model of Python `list.startswith`-style prefix test on character lists. -/
def hasPrefixList : List Char → List Char → Bool
  | [], _ => true
  | _ :: _, [] => false
  | a :: as, b :: bs => a == b && hasPrefixList as bs

/-- Model of Python `sub in s` (substring containment), recursing over `s`. -/
def hasSubstringList : List Char → List Char → Bool
  | [], sub => hasPrefixList sub []
  | c :: cs, sub => hasPrefixList sub (c :: cs) || hasSubstringList cs sub

/-- Model of Python `sub in s` on `String`. -/
def pyContains (s sub : String) : Bool :=
  hasSubstringList s.data sub.data

/-- Model of Python `s.startswith(p)` on `String`. -/
def pyStartsWith (s p : String) : Bool :=
  hasPrefixList p.data s.data

/-- Model of Python `str.strip()` (drop whitespace from both ends). -/
def pyStrip (s : String) : String :=
  String.mk (((s.data.dropWhile Char.isWhitespace).reverse.dropWhile
    Char.isWhitespace).reverse)

/-- Accumulator-based splitter behind `pySplitChar`: splits at every
occurrence of `sep`, keeping empty fields (Python `s.split(sep)`). -/
def splitCharAux (sep : Char) : List Char → List Char → List String
  | [], acc => [String.mk acc.reverse]
  | c :: cs, acc =>
    if c == sep then String.mk acc.reverse :: splitCharAux sep cs []
    else splitCharAux sep cs (c :: acc)

/-- Model of Python `s.split(sep)` with an explicit one-character separator. -/
def pySplitChar (sep : Char) (s : String) : List String :=
  splitCharAux sep s.data []

/-- Accumulator-based splitter behind `pySplitWs`: whitespace runs separate
fields, and no empty fields are produced (Python `s.split()`). -/
def splitWsAux : List Char → List Char → List String
  | [], acc => if acc.isEmpty then [] else [String.mk acc.reverse]
  | c :: cs, acc =>
    if c.isWhitespace then
      if acc.isEmpty then splitWsAux cs []
      else String.mk acc.reverse :: splitWsAux cs []
    else splitWsAux cs (c :: acc)

/-- Model of Python `s.split()` (split on whitespace runs). -/
def pySplitWs (s : String) : List String :=
  splitWsAux s.data []

/-- Model of Python `s.replace(old, new)` for one-character `old`/`new`. -/
def pyReplaceChar (old new : Char) (s : String) : String :=
  String.mk (s.data.map fun c => if c == old then new else c)

/-! ### Command runner results

`escaped.utils.run_command` is not part of the sources under review; per the
spec (§4.1) it returns either a completed-process value carrying
`returncode`/`stdout`/`stderr`, a timeout value, or nothing.  The analyzer
branches on exactly those three shapes
(`result and hasattr(result, 'returncode') and result.returncode == 0 ...`,
`isinstance(result, subprocess.TimeoutExpired)`). -/

/-- Modelled from the spec: the value `escaped.utils.run_command` hands back
to the analyzer — a completed process (`returncode`, `stdout`, `stderr`), a
`subprocess.TimeoutExpired` marker, or `None`; `run_command` itself is not
among the repository sources under `src/`. -/
inductive RunResult where
  | completed (returncode : Int) (stdout : String) (stderr : String)
  | timedOut
  | none_
deriving Repr, DecidableEq

/-- The analyzer's recurring success test
`result and hasattr(result, 'returncode') and result.returncode == 0 and result.stdout`:
a completed process with exit code 0 and non-empty stdout. -/
def RunResult.okStdout : RunResult → Option String
  | .completed rc out _ => if rc == 0 && out != "" then some out else none
  | _ => none

/-- Exit-code-0 test without the stdout requirement
(`result and hasattr(result, 'returncode') and result.returncode == 0`). -/
def RunResult.isZero : RunResult → Bool
  | .completed rc _ _ => rc == 0
  | _ => false

/-! ### Safe path derivation (`clone_repo_with_retries`, analyzer.py lines 32-38,
and `_get_safe_output_subdir`, lines 110-116) -/

/-- Model of `"".join(c if c.isalnum() else "_" for c in name)` (analyzer.py lines
34-35), parametrized by the platform classifier `str.isalnum`. -/
def safe_name (isalnum : Char → Bool) (s : String) : String :=
  String.mk (s.data.map fun c => if isalnum c then c else '_')

/-- Modelled from the spec: Python's `str.isalnum` — true iff the character
is alphabetic or numeric in the Unicode database — restricted to code points
below U+0100; the classifier lives in the Python runtime, not in this
repository's sources.  On that range the alphanumerics are the ASCII digits
and letters together with ª ² ³ µ ¹ º ¼ ½ ¾ and the Latin-1 letters
U+00C0–U+00D6, U+00D8–U+00F6, U+00F8–U+00FF.  Code points at U+0100 and
above are mapped to `false`; the concrete statements below only apply this
classifier to characters below U+0100 for which it is faithful, except for
characters like U+2215 (division slash, category Sm) and U+FF0F (fullwidth
solidus, category Po) which are not alphanumeric in Python either, so
`false` is again faithful. -/
def pyIsAlnum (c : Char) : Bool :=
  let n := c.toNat
  (0x30 ≤ n && n ≤ 0x39) || (0x41 ≤ n && n ≤ 0x5A) || (0x61 ≤ n && n ≤ 0x7A) ||
  n == 0xAA || n == 0xB2 || n == 0xB3 || n == 0xB5 || n == 0xB9 || n == 0xBA ||
  n == 0xBC || n == 0xBD || n == 0xBE ||
  (0xC0 ≤ n && n ≤ 0xD6) || (0xD8 ≤ n && n ≤ 0xF6) || (0xF8 ≤ n && n ≤ 0xFF)

/-- Characters the spec's safe-path property allows in a path segment:
`[A-Za-z0-9_]`. -/
def asciiAlnumUnderscore (c : Char) : Bool :=
  (('0' ≤ c && c ≤ '9') || ('A' ≤ c && c ≤ 'Z') || ('a' ≤ c && c ≤ 'z') || c == '_')

/-- The clone target path
`os.path.join(os.path.join(GIT_CLONE_PATH, safe_org), safe_repo)`
(analyzer.py lines 37-38).  `os.path.join` of relative components is plain
`/`-separated concatenation; the theorems below establish that the joined
components contain no `/`, under which condition this model coincides with
`os.path.join`. -/
def cloneTargetPath (isalnum : Char → Bool) (orgName repoName : String) : String :=
  GIT_CLONE_PATH ++ "/" ++ safe_name isalnum orgName ++ "/" ++ safe_name isalnum repoName

/-- Lexical resolution of a `/`-free segment list against a stack:
`..` pops (returning `none` when the stack is empty, i.e. the path escaped
the root), `.` and the empty segment are skipped, anything else is pushed.
This is the reference meaning of "never escapes the root" for the safe-path
property. -/
def resolveSegs : List String → List String → Option (List String)
  | stack, [] => some stack
  | stack, seg :: rest =>
    if seg = ".." then
      match stack with
      | [] => none
      | _ :: stack' => resolveSegs stack' rest
    else if seg = "." ∨ seg = "" then resolveSegs stack rest
    else resolveSegs (stack ++ [seg]) rest

/-! ### Clone with retries (`clone_repo_with_retries`, analyzer.py lines 27-108) -/

/-- Outcome of one run of the clone retry loop: the returned path (or `none`
after total failure), how many clone attempts were issued, and the backoff
sleeps performed between attempts (in order). -/
structure CloneRun where
  result : Option String
  attemptsMade : Nat
  sleeps : List ℚ
deriving Repr, DecidableEq

/-- The body of `for attempt in range(1, MAX_CLONE_ATTEMPTS + 1)` (analyzer.py
lines 60-108), processed over the list of remaining attempt numbers.
On a zero exit the clone path is returned; otherwise, when
`attempt < MAX_CLONE_ATTEMPTS`, the worker sleeps
`CLONE_RETRY_DELAY_SECONDS * 2^(attempt-1) + jitter attempt` (lines 96-102,
`jitter` standing for `random.uniform(0, CLONE_RETRY_DELAY_SECONDS * 0.25)`)
and retries; on the last attempt it gives up and returns `None`
(lines 103-107).  The trailing `return None` of line 108 is the `[]` case. -/
def cloneAttemptsLoop (maxAttempts : Nat) (retryDelay : ℚ)
    (attemptResult : Nat → RunResult) (jitter : Nat → ℚ)
    (clonedRepoPath : String) : List Nat → CloneRun
  | [] => ⟨none, 0, []⟩
  | a :: rest =>
    if (attemptResult a).isZero then ⟨some clonedRepoPath, 1, []⟩
    else if a < maxAttempts then
      let delay := retryDelay * 2 ^ (a - 1) + jitter a
      let r := cloneAttemptsLoop maxAttempts retryDelay attemptResult jitter clonedRepoPath rest
      ⟨r.result, r.attemptsMade + 1, delay :: r.sleeps⟩
    else ⟨none, 1, []⟩

/-- Function `clone_repo_with_retries(org_name, repo_name)` (analyzer.py lines 27-108):
derives the safe clone target path and runs the retry loop over attempts
`1 .. maxAttempts`.  `attemptResult a` is what `run_command` returned for
attempt `a`; proxy-environment setup and directory cleanup have no bearing
on the returned value and are not modelled. -/
def clone_repo_with_retries (maxAttempts : Nat) (retryDelay : ℚ)
    (isalnum : Char → Bool) (attemptResult : Nat → RunResult) (jitter : Nat → ℚ)
    (orgName repoName : String) : CloneRun :=
  cloneAttemptsLoop maxAttempts retryDelay attemptResult jitter
    (cloneTargetPath isalnum orgName repoName) (List.range' 1 maxAttempts)

/-! ### The analyzer job (`analyze_repository_job`, analyzer.py lines 426-583)

The job's interactions with redis and the queue are recorded as an event
trace; its Python return value (or a propagated exception) is the result.
Note one Python subtlety embedded faithfully below: the `finally` block
(lines 549-583) ends in `return` statements, and a `return` inside `finally`
replaces any value returned from the `try` block and swallows any in-flight
exception.  Hence the `return "clone failed for ..."` of line 491 is dead
and the `raise` of line 548 never propagates. -/

/-- One observable external action of `analyze_repository_job`. -/
inductive JobEvent where
  | counterIncr
  | counterDecr
  | enqueueDelayed (orgName repoName : String) (delay : ℚ)
  | enqueueImmediate (orgName repoName : String)
  | saddProcessed (fullName : String)
  | setCacheKey (key : String)
  | expireCacheKey (key : String) (ttl : Int)
deriving Repr, DecidableEq

/-- Result of the job body: the string handed back to rq, or a propagated
exception (which, because of the `return` in `finally`, never actually
occurs in this function). -/
inductive JobResult where
  | returned (s : String)
  | raised
deriving Repr, DecidableEq

/-- The external world as seen by one run of `analyze_repository_job`:
the counter value read at admission (line 447), the `random.uniform(0, 30)`
draw of line 454, whether `enqueue_in` is available (line 462 versus the
`AttributeError`/`ImportError` fallback of line 468), the per-attempt clone
results and clone jitter draws, and whether the scanning stages raise. -/
structure JobEnv where
  numActive : Int
  requeueJitter : ℚ
  delayedEnqueueOk : Bool
  cloneAttempt : Nat → RunResult
  cloneJitter : Nat → ℚ
  scanRaises : Bool

/-- Function `analyze_repository_job(org_name, repo_name, ...)` (analyzer.py lines
426-583), with the configuration values it reads passed explicitly.
Modelled effects: the admission check and requeue (lines 444-476), the
counter increment (line 479), the clone (line 486), the abort on clone
failure (lines 488-491), the scanning stages collapsed to whether they raise
(lines 494-548), and the `finally` block (lines 549-583): counter decrement,
then — when the scans completed — `sadd` on the processed set, the
`escaped:processed:{full_name}` cache key write, its TTL when positive, and
the returned string.  Local directory cleanup and log output are not
observable through the claims and are not recorded. -/
def analyze_repository_job (globalMax : Int) (requeueDelay : ℚ)
    (maxAttempts : Nat) (retryDelay : ℚ) (cacheTtl : Int)
    (isalnum : Char → Bool) (env : JobEnv)
    (orgName repoName : String) : JobResult × List JobEvent :=
  let fullName := orgName ++ "/" ++ repoName
  if env.numActive ≥ globalMax then
    let delay := requeueDelay + env.requeueJitter
    let enqEvent :=
      if env.delayedEnqueueOk then JobEvent.enqueueDelayed orgName repoName delay
      else JobEvent.enqueueImmediate orgName repoName
    (.returned ("re-queued " ++ fullName ++ ", system busy."), [enqEvent])
  else
    let cloneRun := clone_repo_with_retries maxAttempts retryDelay isalnum
      env.cloneAttempt env.cloneJitter orgName repoName
    match cloneRun.result with
    | none =>
      -- try block: `return "clone failed for ..."` (line 491), overridden by
      -- the `finally` block's `return` for the not-finished case (line 583)
      (.returned ("analysis incomplete/failed for " ++ fullName ++ "."),
        [.counterIncr, .counterDecr])
    | some _ =>
      if env.scanRaises then
        -- `raise` of line 548, swallowed by the `return` of line 583
        (.returned ("analysis incomplete/failed for " ++ fullName ++ "."),
          [.counterIncr, .counterDecr])
      else
        let cacheKey := "escaped:processed:" ++ fullName
        (.returned ("analyzed " ++ fullName ++ " successfully."),
          [.counterIncr, .counterDecr, .saddProcessed fullName, .setCacheKey cacheKey]
            ++ (if cacheTtl > 0 then [.expireCacheKey cacheKey cacheTtl] else []))

/-! ### The admission race (analyzer.py lines 444-479 as a two-step program)

Admission is performed in two separate redis round-trips: a `get` of the
counter (line 447) and, when the read value was below the cap, an `incr`
(line 479).  To examine interleavings of two workers running this code, each
worker is a three-state program and a schedule chooses which worker steps. -/

/-- Program counter of one worker running the admission code: not yet read
the counter, read it (remembering the value), or finished (admitted or
re-queued). -/
inductive AcqPc where
  | start
  | readv (v : Int)
  | finished (admitted : Bool)
deriving Repr, DecidableEq

/-- One step of the admission code against the shared counter: `start` reads
the counter (line 447); `readv v` compares `v ≥ globalMax` (line 449) and
either finishes unadmitted (requeue path) or increments and finishes
admitted (line 479); a finished worker does nothing. -/
def acqStep (globalMax counter : Int) : AcqPc → Int × AcqPc
  | .start => (counter, .readv counter)
  | .readv v =>
    if v ≥ globalMax then (counter, .finished false)
    else (counter + 1, .finished true)
  | .finished b => (counter, .finished b)

/-- Shared state of two workers racing on admission. -/
structure RaceState where
  counter : Int
  first : AcqPc
  second : AcqPc
deriving Repr, DecidableEq

/-- Let the scheduled worker (`true` = first) take one admission step. -/
def raceStep (globalMax : Int) (s : RaceState) : Bool → RaceState
  | true =>
    let (c, p) := acqStep globalMax s.counter s.first
    ⟨c, p, s.second⟩
  | false =>
    let (c, p) := acqStep globalMax s.counter s.second
    ⟨c, s.first, p⟩

/-- Run a schedule of interleaved admission steps for two workers. -/
def runRace (globalMax : Int) : RaceState → List Bool → RaceState
  | s, [] => s
  | s, b :: bs => runRace globalMax (raceStep globalMax s b) bs

/-! ### The semaphore specified in §4.3

The atomic `TryAcquire`/`Release` of spec §4.3 is not implemented anywhere
in the sources (§9 records this); it is embedded here from the spec's words
so the admission-cap invariant it promises can be compared with the code's
two-step admission above. -/

/-- Modelled from the spec: §4.3 `TryAcquire` — "atomically increments
`active` and returns true iff the post-increment value is `≤ GLOBAL_MAX`.
If the post-increment exceeded the cap, it atomically decrements and returns
false."  Not implemented in the repository sources. -/
def tryAcquire (globalMax active : Int) : Int × Bool :=
  let post := active + 1
  if post ≤ globalMax then (post, true) else (post - 1, false)

/-- Modelled from the spec: §4.3 `Release` — "atomic decrement; must never
cause `active < 0` — implementations clamp and log."  Not implemented in the
repository sources. -/
def release (active : Int) : Int :=
  max (active - 1) 0

/-- A sequence of semaphore operations. -/
inductive SemOp where
  | acq
  | rel
deriving Repr, DecidableEq

/-- Run a sequence of §4.3 semaphore operations from a starting value. -/
def runSemOps (globalMax : Int) : Int → List SemOp → Int
  | a, [] => a
  | a, .acq :: ops => runSemOps globalMax (tryAcquire globalMax a).1 ops
  | a, .rel :: ops => runSemOps globalMax (release a) ops

/-- Under the spec's atomic semaphore, the counter stays in
`[0, GLOBAL_MAX]` across any operation sequence (the admission-cap invariant
of §8, which the two-step admission of the source violates). -/
theorem runSemOps_cap (globalMax : Int) (ops : List SemOp) :
    ∀ a : Int, 0 ≤ a → a ≤ globalMax →
      0 ≤ runSemOps globalMax a ops ∧ runSemOps globalMax a ops ≤ globalMax := by
  induction ops with
  | nil => intro a h0 h1; exact ⟨h0, h1⟩
  | cons op ops ih =>
    intro a h0 h1
    cases op with
    | acq =>
      simp only [runSemOps, tryAcquire]
      by_cases h : a + 1 ≤ globalMax
      · simpa [h] using ih (a + 1) (by omega) h
      · simpa [h] using ih a h0 h1
    | rel =>
      simp only [runSemOps, release]
      exact ih _ (le_max_right _ _) (by omega)

/-! ### Output directories (`escaped/config.py` lines 25-28) -/

/-- Constant `RESTORED_FILES_PATH` (config.py line 25). -/
def RESTORED_FILES_PATH : String := BASE_OUTPUT_DIR ++ "/restored_files"

/-- Constant `DANGLING_BLOBS_PATH` (config.py line 26). -/
def DANGLING_BLOBS_PATH : String := BASE_OUTPUT_DIR ++ "/dangling_blobs"

/-- Constant `TRUFFLEHOG_RESULTS_PATH` (config.py line 27). -/
def TRUFFLEHOG_RESULTS_PATH : String := BASE_OUTPUT_DIR ++ "/trufflehog_findings"

/-- Constant `CUSTOM_REGEX_RESULTS_PATH` (config.py line 28). -/
def CUSTOM_REGEX_RESULTS_PATH : String := BASE_OUTPUT_DIR ++ "/custom_regex_findings"

/-- Function `_get_safe_output_subdir(base_path, org_name, repo_name)` (analyzer.py
lines 110-116): `os.path.join(base_path, safe_org, safe_repo)`. -/
def get_safe_output_subdir (isalnum : Char → Bool)
    (basePath orgName repoName : String) : String :=
  basePath ++ "/" ++ safe_name isalnum orgName ++ "/" ++ safe_name isalnum repoName

/-! ### Deleted-file recovery (`restore_deleted_files_in_repo`,
analyzer.py lines 118-202)

The git subprocesses are oracles: `parentsOf c` is the result of
`git log --pretty=%P -n 1 c`, `diffOf p c` of `git diff --name-status p c`,
and `gitShow spec` of `git show spec` where `spec` is the `parent:path`
argument string built on line 190.  A write of restored bytes is recorded
together with the commit, parent and original path that produced it. -/

/-- One restored-file write: the diff context that produced it, the output
file path built on line 184, and the bytes written (line 197). -/
structure RestoredWrite where
  commit : String
  parent : String
  origPath : String
  filePath : String
  content : String
deriving Repr, DecidableEq

/-- Walker state: `already_restored_versions` (line 145, insertion-ordered
keys) and the writes performed so far. -/
structure RestoreState where
  seen : List String
  writes : List RestoredWrite
deriving Repr, DecidableEq

/-- The rename/copy handling of analyzer.py lines 172-174: with exactly
three tab-separated fields and an `R`- or `C`-prefixed status, the original
path is (re)taken from the second field — which the preceding destructuring
already read, so the reassignment is a no-op preserved from the source. -/
def diffOrigPath (status orig0 : String) (parts3 : Bool) : String :=
  if pyStartsWith status "R" && parts3 then orig0
  else if pyStartsWith status "C" && parts3 then orig0
  else orig0

/-- The restore step for one deleted-file diff entry (analyzer.py lines
176-201): dedupe on `f"{parent_sha}:{file_path_original}"`, build the output
path from the `/`- and `\`-sanitized original path, and write the bytes
`git show parent:path` produced when it exited 0 with non-empty output
(recording the dedup key either way, as line 180 does before `git show`
runs). -/
def restoreRecord (gitShow : String → RunResult) (outDir commit parent : String)
    (st : RestoreState) (orig : String) : RestoreState :=
  if st.seen.contains (parent ++ ":" ++ orig) then st
  else
    let seen' := st.seen ++ [parent ++ ":" ++ orig]
    match (gitShow (parent ++ ":" ++ orig)).okStdout with
    | some bytes =>
      ⟨seen', st.writes ++ [⟨commit, parent, orig,
        outDir ++ "/commit_" ++ commit ++ "_parent_" ++ parent ++ "_deleted_"
          ++ pyReplaceChar '\\' '_' (pyReplaceChar '/' '_' orig), bytes⟩]⟩
    | none => ⟨seen', st.writes⟩

/-- Processing of one line of `git diff --name-status` output (analyzer.py
lines 166-201): split on tabs, need at least two fields, take the status and
the left-side path (through the no-op `diffOrigPath`); entries whose status
starts with `D` go through `restoreRecord`. -/
def restoreDiffLine (gitShow : String → RunResult) (outDir commit parent : String)
    (st : RestoreState) (line : String) : RestoreState :=
  if line = "" then st
  else
    match pySplitChar '\t' line with
    | status :: orig0 :: restParts =>
      if pyStartsWith status "D" then
        restoreRecord gitShow outDir commit parent st
          (diffOrigPath status orig0 ((status :: orig0 :: restParts).length == 3))
      else st
    | _ => st

/-- Processing of one parent of a commit (analyzer.py lines 159-201): run the
diff against that parent and, when it exited 0 with non-empty output, walk
its stripped lines. -/
def restoreParent (diffOf : String → String → RunResult)
    (gitShow : String → RunResult) (outDir commit : String)
    (st : RestoreState) (parent : String) : RestoreState :=
  match (diffOf parent commit).okStdout with
  | none => st
  | some out =>
    (pySplitChar '\n' (pyStrip out)).foldl (restoreDiffLine gitShow outDir commit parent) st

/-- Processing of one commit SHA (analyzer.py lines 147-201): skip empty
lines, look up the parents (`git log --pretty=%P -n 1`), require exit 0 and
a non-blank stdout, and fold over the whitespace-separated parent SHAs. -/
def restoreCommit (parentsOf : String → RunResult)
    (diffOf : String → String → RunResult) (gitShow : String → RunResult)
    (outDir : String) (st : RestoreState) (commit : String) : RestoreState :=
  if commit = "" then st
  else
    match parentsOf commit with
    | .completed rc out _ =>
      if rc == 0 && pyStrip out != "" then
        if (pySplitWs (pyStrip out)).isEmpty then st
        else (pySplitWs (pyStrip out)).foldl (restoreParent diffOf gitShow outDir commit) st
      else st
    | _ => st

/-- Function `restore_deleted_files_in_repo` (analyzer.py lines 118-202): when the
`rev-list` command exited 0 with non-empty output, walk its stripped,
newline-split commit list from an empty dedup table.  The audit-log writes
(lines 186-187, 199, 201) carry no restored bytes and are not recorded. -/
def restore_deleted_files_in_repo (revList : RunResult)
    (parentsOf : String → RunResult) (diffOf : String → String → RunResult)
    (gitShow : String → RunResult) (outDir : String) : RestoreState :=
  match revList.okStdout with
  | none => ⟨[], []⟩
  | some out =>
    (pySplitChar '\n' (pyStrip out)).foldl
      (restoreCommit parentsOf diffOf gitShow outDir) ⟨[], []⟩

/-! ### Dangling-blob extraction (second `extract_dangling_blobs_in_repo`,
analyzer.py lines 266-304 — the later definition, which overrides the one at
lines 205-264) -/

/-- One observable action of the dangling-blob extractor: an
`sh -c "git unpack-objects -r < pack"` invocation, the `git fsck` run, a blob
file write, the cat-file error log line, or an `AttributeError` raised by
reading `.returncode` off a `TimeoutExpired` value (the second definition
has no `hasattr` guard on its first conditions). -/
inductive BlobEvent where
  | unpack (packPath : String)
  | fsckRun
  | writeBlob (sha path content : String)
  | logCatError (sha : String)
  | pyError (what : String)
deriving Repr, DecidableEq

/-- SHA extraction from one `git fsck` output line (analyzer.py lines
289-292): lines containing `"unreachable blob"` contribute their third
whitespace-separated field. -/
def fsckLineSha (line : String) : Option String :=
  if pyContains line "unreachable blob" then
    match pySplitWs line with
    | _ :: _ :: sha :: _ => some sha
    | _ => none
  else none

/-- The blob SHAs collected from the stripped, newline-split fsck output
(analyzer.py lines 288-292). -/
def danglingBlobShas (fsckOut : String) : List String :=
  (pySplitChar '\n' (pyStrip fsckOut)).filterMap fsckLineSha

/-- The cat-file loop of the second extractor (analyzer.py lines 293-303):
for each SHA, the output path is `{sha}.blob` under the output directory;
a zero exit with non-empty stdout writes the bytes, any other completed
process logs an error, a `None` result does neither, and a timeout raises
`AttributeError` at `cat_file_result.returncode` (line 297), aborting the
loop. -/
def catBlobEvents (catFile : String → RunResult) (outDir : String) :
    List String → List BlobEvent
  | [] => []
  | sha :: rest =>
    match catFile sha with
    | .completed rc out _ =>
      (if rc == 0 && out != "" then [.writeBlob sha (outDir ++ "/" ++ sha ++ ".blob") out]
       else [.logCatError sha])
        ++ catBlobEvents catFile outDir rest
    | .timedOut => [.pyError "cat_file_result.returncode"]
    | .none_ => catBlobEvents catFile outDir rest

/-- The fsck phase and everything after it (analyzer.py lines 282-304):
`git fsck` always runs once the pack phase finished; a non-zero exit, empty
stdout or `None` result ends the function, a timeout raises at
`fsck_result.returncode` (line 285), and otherwise the collected SHAs are
fed to the cat-file loop. -/
def extractAfterPacks (unpacks : List BlobEvent) (fsck : RunResult)
    (catFile : String → RunResult) (outDir : String) : List BlobEvent :=
  unpacks ++ BlobEvent.fsckRun ::
    (match fsck with
     | .completed rc out _ =>
       if rc != 0 || out == "" then []
       else catBlobEvents catFile outDir (danglingBlobShas out)
     | .timedOut => [.pyError "fsck_result.returncode"]
     | .none_ => [])

/-- The second `extract_dangling_blobs_in_repo` (analyzer.py lines 266-304):
`find .git/objects/pack -name "*.pack"` lists the packs; on exit 0 with
non-empty stdout every non-empty stripped line is unpacked via
`sh -c "git unpack-objects -r < ..."` (lines 276-280), a timeout raises at
`packs_result.returncode` (line 276), and then the fsck phase runs.
`out dir` is `_get_safe_output_subdir(DANGLING_BLOBS_PATH, org, repo)`;
the error-log file writes carry no blob bytes and only the cat-file error
log is recorded (as an event). -/
def extract_dangling_blobs_in_repo (findPacks fsck : RunResult)
    (catFile : String → RunResult) (outDir : String) : List BlobEvent :=
  match findPacks with
  | .timedOut => [.pyError "packs_result.returncode"]
  | .none_ => extractAfterPacks [] fsck catFile outDir
  | .completed rc out _ =>
    if rc == 0 && out != "" then
      extractAfterPacks (((pySplitChar '\n' (pyStrip out)).filter (fun p => p != "")).map
        (fun p => BlobEvent.unpack (pyStrip p))) fsck catFile outDir
    else extractAfterPacks [] fsck catFile outDir

/-! ### TruffleHog invocation (`run_trufflehog`, analyzer.py lines 307-340) -/

/-- What `process.communicate` produced for one TruffleHog run: a finished
process, a `subprocess.TimeoutExpired`, or some other raised exception. -/
inductive THOutcome where
  | finished (returncode : Int) (stdout stderr : String)
  | timedOut
  | raisedErr
deriving Repr, DecidableEq

/-- Observable actions of `run_trufflehog`: the unexpected-exit-code log
line (line 332), the results-file write (lines 334 and 337), and the
timeout / generic error log lines of the two `except` clauses. -/
inductive THEvent where
  | unexpectedCodeLog (returncode : Int)
  | wroteResults (file content : String)
  | timeoutLog
  | errorLog
deriving Repr, DecidableEq

/-- The results file name of analyzer.py line 311:
`{TRUFFLEHOG_RESULTS_PATH}/{safe_org}_{safe_repo}_{scan_type}_trufflehog.json`. -/
def trufflehogResultsFile (isalnum : Char → Bool)
    (orgName repoName scanType : String) : String :=
  TRUFFLEHOG_RESULTS_PATH ++ "/" ++ safe_name isalnum orgName ++ "_"
    ++ safe_name isalnum repoName ++ "_" ++ scanType ++ "_trufflehog.json"

/-- Function `run_trufflehog` (analyzer.py lines 307-340), observed after
`communicate`: exit codes other than 0 and 1 are logged as unexpected
(line 332) and processing continues; non-empty stdout is written to the
results file verbatim (line 334); empty stdout with exit code 0 writes the
literal `"[]"` (line 337); empty stdout with any other exit code writes
nothing.  `TimeoutExpired` and other exceptions only log (lines 339-340). -/
def run_trufflehog (isalnum : Char → Bool)
    (orgName repoName scanType : String) (outcome : THOutcome) : List THEvent :=
  let resultsFile := trufflehogResultsFile isalnum orgName repoName scanType
  match outcome with
  | .finished rc out _ =>
    (if rc != 0 && rc != 1 then [.unexpectedCodeLog rc] else [])
      ++ (if out != "" then [.wroteResults resultsFile out]
          else if rc == 0 then [.wroteResults resultsFile "[]"]
          else [])
  | .timedOut => [.timeoutLog]
  | .raisedErr => [.errorLog]

/-! ### Custom regex scanner (`run_custom_analyzer_on_path`,
analyzer.py lines 364-412, and `analyze_content_with_heuristics`,
lines 343-362) -/

/-- One file met by `os.walk`: its basename, what `os.path.getsize` returned
(`none` models the `OSError` of a file vanishing between walk and stat,
lines 388-390), and the `content_str` the double read dance of lines 396-403
produced (`none` when both reads failed and the file is skipped). -/
structure FsFile where
  name : String
  size : Option Int
  content : Option String

/-- Modelled from the spec: Python `str.lower`, restricted to ASCII — the
classifier lives in the Python runtime, not in this repository's sources;
it is applied to extension strings, which are compared against ASCII
denylist entries. -/
def pyLowerAscii (s : String) : String :=
  String.mk (s.data.map fun c => if 'A' ≤ c && c ≤ 'Z' then Char.ofNat (c.toNat + 32) else c)

/-- Index of the last `.` in a character list, if any. -/
def lastDotIdx (cs : List Char) : Option Nat :=
  match cs with
  | [] => none
  | c :: rest =>
    match lastDotIdx rest with
    | some i => some (i + 1)
    | none => if c == '.' then some 0 else none

/-- Modelled from the spec's platform: `os.path.splitext(name)[1]` for a
basename — the extension starts at the last `.`, except that a basename
consisting of leading dots only has no extension (every character before the
last dot is a dot). -/
def pySplitextExt (name : String) : String :=
  match lastDotIdx name.data with
  | none => ""
  | some i =>
    if (name.data.take i).any (fun c => c != '.') then String.mk (name.data.drop i)
    else ""

/-- Per-file step of the scan loop (analyzer.py lines 374-406): skip the
file when its lower-cased extension is denylisted (line 379); when
`MAX_FILE_SIZE_TO_SCAN_BYTES > 0`, skip on a stat error (`OSError`,
line 388) or when the size exceeds the limit (line 385); otherwise, when a
non-empty `content_str` was obtained, extend the findings with what the
heuristics produce for this file.  `heur` abstracts
`analyze_content_with_heuristics` applied to this file's logging path and
name; its regex engine is outside the sources' data flow studied here. -/
def customScanFile {α : Type} (denylist : List String) (maxSize : Int)
    (heur : String → String → List α) (acc : List α) (f : FsFile) : List α :=
  if denylist.contains (pyLowerAscii (pySplitextExt f.name)) then acc
  else if maxSize > 0 then
    match f.size with
    | none => acc
    | some sz =>
      if sz > maxSize then acc
      else
        match f.content with
        | none => acc
        | some c => if c != "" then acc ++ heur f.name c else acc
  else
    match f.content with
    | none => acc
    | some c => if c != "" then acc ++ heur f.name c else acc

/-- Result of one `run_custom_analyzer_on_path` run: all collected findings
and the payload handed to `json.dump` for the findings file (lines 408-412:
the findings when non-empty, otherwise the empty array). -/
structure CustomScanRun (α : Type) where
  findings : List α
  writtenPayload : List α

/-- Function `run_custom_analyzer_on_path` (analyzer.py lines 364-412) over the files
`os.walk` yields, parametrized by `DENYLIST_EXTENSIONS` and
`MAX_FILE_SIZE_TO_SCAN_BYTES` (imported names whose defining module is not
among the sources) and by the heuristics engine. -/
def run_custom_analyzer_on_path {α : Type} (denylist : List String)
    (maxSize : Int) (heur : String → String → List α)
    (files : List FsFile) : CustomScanRun α :=
  let allFindings := files.foldl (customScanFile denylist maxSize heur) []
  ⟨allFindings, if allFindings.isEmpty then [] else allFindings⟩

/-! ## Theorems about the claims -/

/-- Claim C1: the claim states that acquisition of a pipeline slot
atomically increments `active` and keeps every observation of the counter at
or below `GLOBAL_MAX`.  The source instead reads the counter and increments
it in two separate steps (analyzer.py lines 447 and 479): with
`GLOBAL_MAX_CONCURRENT_PIPELINES = 10` and the counter at 9, the
interleaving read/read/increment/increment of two workers admits both and
drives the counter to 11, strictly above the cap — the spec itself records
this non-atomic check-then-increment as a source bug (§9). -/
theorem c1_admission_race_overshoots_cap :
    (runRace GLOBAL_MAX_CONCURRENT_PIPELINES ⟨9, .start, .start⟩
        [true, false, true, false]).counter = GLOBAL_MAX_CONCURRENT_PIPELINES + 1 ∧
    (runRace GLOBAL_MAX_CONCURRENT_PIPELINES ⟨9, .start, .start⟩
        [true, false, true, false]).first = .finished true ∧
    (runRace GLOBAL_MAX_CONCURRENT_PIPELINES ⟨9, .start, .start⟩
        [true, false, true, false]).second = .finished true ∧
    ¬ (runRace GLOBAL_MAX_CONCURRENT_PIPELINES ⟨9, .start, .start⟩
        [true, false, true, false]).counter ≤ GLOBAL_MAX_CONCURRENT_PIPELINES := by
  refine ⟨by decide, by decide, by decide, by decide⟩

/-- Claim C2: on every terminal path of the analyzer job the counter
increment of line 479 is paired with exactly one decrement (the `finally`
block of line 559): the trace holds equally many increments and decrements,
at most one of each, and the increment happens exactly when the admission
read was below the cap (the re-queue path performs neither operation). -/
theorem c2_semaphore_conservation (globalMax : Int) (requeueDelay : ℚ)
    (maxAttempts : Nat) (retryDelay : ℚ) (cacheTtl : Int)
    (isalnum : Char → Bool) (env : JobEnv) (orgName repoName : String) :
    ((analyze_repository_job globalMax requeueDelay maxAttempts retryDelay cacheTtl
        isalnum env orgName repoName).2.count JobEvent.counterDecr
      = (analyze_repository_job globalMax requeueDelay maxAttempts retryDelay cacheTtl
        isalnum env orgName repoName).2.count JobEvent.counterIncr) ∧
    (analyze_repository_job globalMax requeueDelay maxAttempts retryDelay cacheTtl
        isalnum env orgName repoName).2.count JobEvent.counterIncr ≤ 1 ∧
    ((analyze_repository_job globalMax requeueDelay maxAttempts retryDelay cacheTtl
        isalnum env orgName repoName).2.count JobEvent.counterIncr = 1
      ↔ env.numActive < globalMax) := by
  unfold analyze_repository_job
  by_cases hbusy : env.numActive ≥ globalMax
  · by_cases hdel : env.delayedEnqueueOk <;>
      simp [hbusy, hdel, List.count_cons, List.count_nil]
  · rcases hres : (clone_repo_with_retries maxAttempts retryDelay isalnum
      env.cloneAttempt env.cloneJitter orgName repoName).result with _ | p
    · simp [hbusy, hres, List.count_cons, List.count_nil]; omega
    · by_cases hraise : env.scanRaises
      · simp [hbusy, hres, hraise, List.count_cons, List.count_nil]; omega
      · by_cases httl : cacheTtl > 0 <;>
          simp [hbusy, hres, hraise, httl, List.count_cons, List.count_nil,
            List.count_append] <;> omega

/-- Concrete instance of `c2_semaphore_conservation`: an admitted job whose
clone fails still releases its slot exactly once. -/
theorem c2_semaphore_conservation_witness :
    (analyze_repository_job 10 120 3 60 86400 pyIsAlnum
        ⟨0, 0, true, fun _ => .completed 1 "" "boom", fun _ => 0, false⟩
        "acme" "foo").2.count JobEvent.counterDecr = 1 := by
  have h := c2_semaphore_conservation 10 120 3 60 86400 pyIsAlnum
    ⟨0, 0, true, fun _ => .completed 1 "" "boom", fun _ => 0, false⟩ "acme" "foo"
  rw [h.1, h.2.2.mpr (by norm_num)]

/-- Claim C3: when the admission read is at or above the cap, the job
enqueues a fresh analysis job for the same repo — delayed by
`ANALYZER_REQUEUE_DELAY_SECONDS + uniform[0, 30]` when `enqueue_in` is
available, immediately otherwise — performs no counter operation, and
returns a success string instead of raising. -/
theorem c3_admission_denied_requeues (globalMax : Int) (requeueDelay : ℚ)
    (maxAttempts : Nat) (retryDelay : ℚ) (cacheTtl : Int)
    (isalnum : Char → Bool) (env : JobEnv) (orgName repoName : String)
    (hbusy : env.numActive ≥ globalMax)
    (hj0 : 0 ≤ env.requeueJitter) (hj30 : env.requeueJitter ≤ 30) :
    (analyze_repository_job globalMax requeueDelay maxAttempts retryDelay cacheTtl
        isalnum env orgName repoName).1
      = .returned ("re-queued " ++ (orgName ++ "/" ++ repoName) ++ ", system busy.") ∧
    (env.delayedEnqueueOk = true →
      (analyze_repository_job globalMax requeueDelay maxAttempts retryDelay cacheTtl
          isalnum env orgName repoName).2
        = [.enqueueDelayed orgName repoName (requeueDelay + env.requeueJitter)] ∧
      requeueDelay ≤ requeueDelay + env.requeueJitter ∧
      requeueDelay + env.requeueJitter ≤ requeueDelay + 30) ∧
    (env.delayedEnqueueOk = false →
      (analyze_repository_job globalMax requeueDelay maxAttempts retryDelay cacheTtl
          isalnum env orgName repoName).2
        = [.enqueueImmediate orgName repoName]) ∧
    (analyze_repository_job globalMax requeueDelay maxAttempts retryDelay cacheTtl
        isalnum env orgName repoName).2.count JobEvent.counterIncr = 0 := by
  refine ⟨?_, ?_, ?_, ?_⟩
  · simp [analyze_repository_job, hbusy]
  · intro hdel
    refine ⟨?_, by linarith, by linarith⟩
    simp [analyze_repository_job, hbusy, hdel]
  · intro hdel
    simp [analyze_repository_job, hbusy, hdel]
  · by_cases hdel : env.delayedEnqueueOk <;>
      simp [analyze_repository_job, hbusy, hdel, List.count_cons, List.count_nil]

/-- Concrete instance of `c3_admission_denied_requeues`: with the counter at
the cap of 10 and a jitter draw of 3, the job re-queues itself with delay
`120 + 3` and returns the busy message. -/
theorem c3_admission_denied_requeues_witness :
    (analyze_repository_job 10 120 3 60 86400 pyIsAlnum
        ⟨10, 3, true, fun _ => .completed 0 "ok" "", fun _ => 0, false⟩
        "acme" "foo").1 = .returned "re-queued acme/foo, system busy." ∧
    (analyze_repository_job 10 120 3 60 86400 pyIsAlnum
        ⟨10, 3, true, fun _ => .completed 0 "ok" "", fun _ => 0, false⟩
        "acme" "foo").2 = [.enqueueDelayed "acme" "foo" ((120 : ℚ) + 3)] := by
  have h := c3_admission_denied_requeues 10 120 3 60 86400 pyIsAlnum
    ⟨10, 3, true, fun _ => .completed 0 "ok" "", fun _ => 0, false⟩ "acme" "foo"
    (by norm_num) (by norm_num) (by norm_num)
  exact ⟨h.1, (h.2.1 rfl).1⟩

/-- Claim C4: the claim states that after a final clone failure the job
returns a clone-failed result.  The `return "clone failed for ..."` of
analyzer.py line 491 is dead: the `finally` block's own `return`
(line 583) replaces it, so an admitted job whose clone fails all attempts
returns the `analysis incomplete/failed` string instead — while, as the
claim also states, nothing is added to the processed set or the cache on
that path (the completion marking of lines 566-578 requires the scanning
stage to have finished). -/
theorem c4_clone_failure_return_overridden :
    ((analyze_repository_job 10 120 3 60 86400 pyIsAlnum
        ⟨0, 0, true, fun _ => .completed 1 "" "fatal: unable to access", fun _ => 0, false⟩
        "acme" "foo").1 = .returned "analysis incomplete/failed for acme/foo.") ∧
    ((analyze_repository_job 10 120 3 60 86400 pyIsAlnum
        ⟨0, 0, true, fun _ => .completed 1 "" "fatal: unable to access", fun _ => 0, false⟩
        "acme" "foo").1 ≠ .returned "clone failed for acme/foo") ∧
    (∀ e ∈ (analyze_repository_job 10 120 3 60 86400 pyIsAlnum
        ⟨0, 0, true, fun _ => .completed 1 "" "fatal: unable to access", fun _ => 0, false⟩
        "acme" "foo").2, e = JobEvent.counterIncr ∨ e = JobEvent.counterDecr) := by
  refine ⟨by decide, by decide, by decide⟩

/-- Structure of one run of the clone retry loop over the attempt numbers
`s, s+1, …` (analyzer.py lines 60-108): at most `n` attempts are made, at
least one when any remain, the backoff sleeps are exactly
`retryDelay * 2^(a-1) + jitter a` for the consecutive failed attempts
strictly before the last attempt made, and when every attempt fails the loop
returns `none` after making all `n` attempts. -/
theorem cloneAttemptsLoop_range_spec (maxAttempts : Nat) (retryDelay : ℚ)
    (attemptResult : Nat → RunResult) (jitter : Nat → ℚ) (path : String) :
    ∀ n s, s + n = maxAttempts + 1 → 1 ≤ s →
      (cloneAttemptsLoop maxAttempts retryDelay attemptResult jitter path
          (List.range' s n)).attemptsMade ≤ n ∧
      (0 < n → 1 ≤ (cloneAttemptsLoop maxAttempts retryDelay attemptResult jitter path
          (List.range' s n)).attemptsMade) ∧
      (cloneAttemptsLoop maxAttempts retryDelay attemptResult jitter path
          (List.range' s n)).sleeps
        = (List.range' s ((cloneAttemptsLoop maxAttempts retryDelay attemptResult jitter path
            (List.range' s n)).attemptsMade - 1)).map
            (fun a => retryDelay * 2 ^ (a - 1) + jitter a) ∧
      ((∀ a, s ≤ a → a < s + n → (attemptResult a).isZero = false) →
        (cloneAttemptsLoop maxAttempts retryDelay attemptResult jitter path
            (List.range' s n)).result = none ∧
        (cloneAttemptsLoop maxAttempts retryDelay attemptResult jitter path
            (List.range' s n)).attemptsMade = n) := by
  intro n
  induction n with
  | zero =>
    intro s h1 h2
    exact ⟨Nat.le_refl 0, by omega, by simp [cloneAttemptsLoop], fun _ => ⟨rfl, rfl⟩⟩
  | succ n ih =>
    intro s h1 h2
    have hcons : List.range' s (n + 1) = s :: List.range' (s + 1) n := List.range'_succ s n 1
    by_cases hz : (attemptResult s).isZero
    · have hr : cloneAttemptsLoop maxAttempts retryDelay attemptResult jitter path
          (List.range' s (n + 1)) = ⟨some path, 1, []⟩ := by
        rw [hcons]; simp [cloneAttemptsLoop, hz]
      rw [hr]
      refine ⟨?_, fun _ => ?_, by simp, fun hall => ?_⟩
      · show 1 ≤ n + 1; omega
      · show 1 ≤ 1; omega
      · exact absurd hz (by simp [hall s (Nat.le_refl s) (by omega)])
    · by_cases hlt : s < maxAttempts
      · have hn : 0 < n := by omega
        obtain ⟨ha, hb, hc, hd⟩ := ih (s + 1) (by omega) (by omega)
        have hr : cloneAttemptsLoop maxAttempts retryDelay attemptResult jitter path
            (List.range' s (n + 1)) =
            ⟨(cloneAttemptsLoop maxAttempts retryDelay attemptResult jitter path
                (List.range' (s + 1) n)).result,
             (cloneAttemptsLoop maxAttempts retryDelay attemptResult jitter path
                (List.range' (s + 1) n)).attemptsMade + 1,
             (retryDelay * 2 ^ (s - 1) + jitter s) ::
               (cloneAttemptsLoop maxAttempts retryDelay attemptResult jitter path
                (List.range' (s + 1) n)).sleeps⟩ := by
          rw [hcons]; simp [cloneAttemptsLoop, hz, hlt]
        rw [hr]
        refine ⟨?_, fun _ => ?_, ?_, fun hall => ?_⟩
        · show (cloneAttemptsLoop maxAttempts retryDelay attemptResult jitter path
            (List.range' (s + 1) n)).attemptsMade + 1 ≤ n + 1
          omega
        · show 1 ≤ (cloneAttemptsLoop maxAttempts retryDelay attemptResult jitter path
            (List.range' (s + 1) n)).attemptsMade + 1
          omega
        · show (retryDelay * 2 ^ (s - 1) + jitter s) ::
              (cloneAttemptsLoop maxAttempts retryDelay attemptResult jitter path
                (List.range' (s + 1) n)).sleeps
            = (List.range' s ((cloneAttemptsLoop maxAttempts retryDelay attemptResult jitter path
                (List.range' (s + 1) n)).attemptsMade + 1 - 1)).map
                (fun a => retryDelay * 2 ^ (a - 1) + jitter a)
          have h1le : 1 ≤ (cloneAttemptsLoop maxAttempts retryDelay attemptResult jitter path
              (List.range' (s + 1) n)).attemptsMade := hb hn
          obtain ⟨k, hk⟩ : ∃ k, (cloneAttemptsLoop maxAttempts retryDelay attemptResult jitter path
              (List.range' (s + 1) n)).attemptsMade = k + 1 :=
            ⟨(cloneAttemptsLoop maxAttempts retryDelay attemptResult jitter path
              (List.range' (s + 1) n)).attemptsMade - 1, by omega⟩
          rw [hk, Nat.add_sub_cancel, List.range'_succ, List.map_cons]
          refine congrArg (_ :: ·) ?_
          rw [hc, hk, Nat.add_sub_cancel]
        · refine ⟨(hd fun a hale halt => hall a (by omega) (by omega)).1, ?_⟩
          show (cloneAttemptsLoop maxAttempts retryDelay attemptResult jitter path
            (List.range' (s + 1) n)).attemptsMade + 1 = n + 1
          rw [(hd fun a hale halt => hall a (by omega) (by omega)).2]
      · have hr : cloneAttemptsLoop maxAttempts retryDelay attemptResult jitter path
            (List.range' s (n + 1)) = ⟨none, 1, []⟩ := by
          rw [hcons]; simp [cloneAttemptsLoop, hz, hlt]
        have hn0 : n = 0 := by omega
        rw [hr]
        refine ⟨?_, fun _ => ?_, by simp, fun _ => ⟨rfl, ?_⟩⟩
        · show 1 ≤ n + 1; omega
        · show 1 ≤ 1; omega
        · show 1 = n + 1; omega

/-- Claim C5: cloning is attempted at most `maxAttempts` times; after each
failed attempt except the last the wait is
`CLONE_RETRY_DELAY_SECONDS * 2^(attempt-1)` plus the attempt's uniform
jitter draw from `[0, CLONE_RETRY_DELAY_SECONDS * 0.25]`, so the `i`-th wait
(0-based) lies in `[retryDelay * 2^i, retryDelay * 2^i + retryDelay/4]`;
and when every attempt fails, all `maxAttempts` attempts happen and the
clone returns failure (`None`), aborting the job. -/
theorem c5_clone_retry_schedule (maxAttempts : Nat) (retryDelay : ℚ)
    (isalnum : Char → Bool) (attemptResult : Nat → RunResult) (jitter : Nat → ℚ)
    (orgName repoName : String)
    (hjit : ∀ a, 0 ≤ jitter a ∧ jitter a ≤ retryDelay * (1 / 4)) :
    (clone_repo_with_retries maxAttempts retryDelay isalnum attemptResult jitter
        orgName repoName).attemptsMade ≤ maxAttempts ∧
    (clone_repo_with_retries maxAttempts retryDelay isalnum attemptResult jitter
        orgName repoName).sleeps
      = (List.range' 1 ((clone_repo_with_retries maxAttempts retryDelay isalnum
          attemptResult jitter orgName repoName).attemptsMade - 1)).map
          (fun a => retryDelay * 2 ^ (a - 1) + jitter a) ∧
    (∀ i, ∀ h : i < (clone_repo_with_retries maxAttempts retryDelay isalnum
        attemptResult jitter orgName repoName).sleeps.length,
      retryDelay * 2 ^ i ≤ (clone_repo_with_retries maxAttempts retryDelay isalnum
          attemptResult jitter orgName repoName).sleeps.get ⟨i, h⟩ ∧
      (clone_repo_with_retries maxAttempts retryDelay isalnum attemptResult jitter
          orgName repoName).sleeps.get ⟨i, h⟩
        ≤ retryDelay * 2 ^ i + retryDelay * (1 / 4)) ∧
    ((∀ a, 1 ≤ a → a ≤ maxAttempts → (attemptResult a).isZero = false) →
      (clone_repo_with_retries maxAttempts retryDelay isalnum attemptResult jitter
          orgName repoName).result = none ∧
      (clone_repo_with_retries maxAttempts retryDelay isalnum attemptResult jitter
          orgName repoName).attemptsMade = maxAttempts) := by
  unfold clone_repo_with_retries
  obtain ⟨ha, hb, hc, hd⟩ := cloneAttemptsLoop_range_spec maxAttempts retryDelay
    attemptResult jitter (cloneTargetPath isalnum orgName repoName) maxAttempts 1
    (by omega) (Nat.le_refl 1)
  refine ⟨ha, hc, ?_, fun hall => hd fun a hle hlt => hall a hle (by omega)⟩
  intro i h
  have hget : (cloneAttemptsLoop maxAttempts retryDelay attemptResult jitter
      (cloneTargetPath isalnum orgName repoName) (List.range' 1 maxAttempts)).sleeps.get ⟨i, h⟩
      = retryDelay * 2 ^ (1 + i - 1) + jitter (1 + i) := by
    rw [List.get_of_eq hc ⟨i, h⟩]
    simp [List.getElem_map, List.getElem_range']
  rw [hget]
  have hi : 1 + i - 1 = i := Nat.add_sub_cancel_left 1 i
  rw [hi]
  have hj := hjit (1 + i)
  constructor
  · linarith [hj.1]
  · linarith [hj.2]

/-- Concrete instance of `c5_clone_retry_schedule`: with the default
configuration (3 attempts, 60 s base delay) and every attempt failing with
exit code 1 and zero jitter, three attempts happen, the clone fails, and at
most `MAX_CLONE_ATTEMPTS` attempts were made. -/
theorem c5_clone_retry_schedule_witness :
    (clone_repo_with_retries 3 60 pyIsAlnum (fun _ => .completed 1 "" "boom")
        (fun _ => 0) "acme" "foo").attemptsMade ≤ 3 ∧
    (clone_repo_with_retries 3 60 pyIsAlnum (fun _ => .completed 1 "" "boom")
        (fun _ => 0) "acme" "foo").result = none ∧
    (clone_repo_with_retries 3 60 pyIsAlnum (fun _ => .completed 1 "" "boom")
        (fun _ => 0) "acme" "foo").attemptsMade = 3 := by
  have h := c5_clone_retry_schedule 3 60 pyIsAlnum (fun _ => .completed 1 "" "boom")
    (fun _ => 0) "acme" "foo" (fun a => ⟨le_refl 0, by norm_num⟩)
  have hfail := h.2.2.2 (fun a _ _ => rfl)
  exact ⟨h.1, hfail.1, hfail.2⟩

/-- Every character of a sanitized name is either accepted by the classifier
or the replacement underscore. -/
theorem safe_name_chars (p : Char → Bool) (s : String) :
    ∀ c ∈ (safe_name p s).data, p c = true ∨ c = '_' := by
  intro c hc
  simp only [safe_name, List.mem_map] at hc
  obtain ⟨a, _, ha⟩ := hc
  by_cases hpa : p a
  · left; rw [← ha]; simp [hpa]
  · right; rw [← ha]; simp [hpa]

/-- A character rejected by the classifier and different from `_` cannot
survive sanitization. -/
theorem safe_name_avoids (p : Char → Bool) (s : String) (bad : Char)
    (hbad : p bad = false) (hne : bad ≠ '_') :
    ∀ c ∈ (safe_name p s).data, c ≠ bad := by
  intro c hc
  rcases safe_name_chars p s c hc with h | h
  · intro hcb; rw [hcb, hbad] at h; cases h
  · rw [h]; exact fun hcb => hne hcb.symm

/-- Resolving segments none of which is `..` can only deepen the stack:
the prefix below is preserved, so such segments never escape the root. -/
theorem resolveSegs_no_dotdot (segs : List String)
    (h : ∀ seg ∈ segs, seg ≠ "..") :
    ∀ stack, ∃ rest, resolveSegs stack segs = some (stack ++ rest) := by
  induction segs with
  | nil => intro stack; exact ⟨[], by simp [resolveSegs]⟩
  | cons seg rest ih =>
    intro stack
    have hne : seg ≠ ".." := h seg (by simp)
    by_cases hdot : seg = "." ∨ seg = ""
    · obtain ⟨r, hr⟩ := ih (fun s hs => h s (by simp [hs])) stack
      exact ⟨r, by simp [resolveSegs, hne, hdot, hr]⟩
    · obtain ⟨r, hr⟩ := ih (fun s hs => h s (by simp [hs])) (stack ++ [seg])
      refine ⟨[seg] ++ r, ?_⟩
      simp only [resolveSegs, if_neg hne, if_neg hdot, hr, List.append_assoc]

/-- A string all of whose characters differ from `.` is not `..`. -/
theorem ne_dotdot_of_no_dot (s : String) (h : ∀ c ∈ s.data, c ≠ '.') :
    s ≠ ".." := by
  intro hs
  exact h '.' (by rw [hs]; decide) rfl

/-- Claim C7 (amended): for any org and repo name, every character of the
two derived path segments is either Python-alphanumeric or `_`; in
particular the segments contain no `/`, `\`, `.` or NUL (Python's
`str.isalnum` rejects all four), so resolving
`{GIT_CLONE_PATH}/{safe_org}/{safe_repo}` never escapes `GIT_CLONE_PATH` —
the two root components are preserved at the bottom of the resolved path.
The claim's stronger `[A-Za-z0-9_]`-only character set does not hold for
non-ASCII alphanumerics (see the counterexample). -/
theorem c7_safe_path_stays_within_clone_root (isalnum : Char → Bool)
    (hslash : isalnum '/' = false) (hbackslash : isalnum '\\' = false)
    (hdot : isalnum '.' = false) (hnul : isalnum (Char.ofNat 0) = false)
    (orgName repoName : String) :
    (∀ c ∈ (safe_name isalnum orgName).data, isalnum c = true ∨ c = '_') ∧
    (∀ c ∈ (safe_name isalnum repoName).data, isalnum c = true ∨ c = '_') ∧
    (∀ c ∈ (safe_name isalnum orgName).data ++ (safe_name isalnum repoName).data,
      c ≠ '/' ∧ c ≠ '\\' ∧ c ≠ '.' ∧ c ≠ Char.ofNat 0) ∧
    (∃ rest, resolveSegs ["analysis_output", "cloned_repos"]
        [safe_name isalnum orgName, safe_name isalnum repoName]
      = some (["analysis_output", "cloned_repos"] ++ rest)) ∧
    cloneTargetPath isalnum orgName repoName
      = GIT_CLONE_PATH ++ "/" ++ safe_name isalnum orgName ++ "/"
          ++ safe_name isalnum repoName := by
  refine ⟨safe_name_chars isalnum orgName, safe_name_chars isalnum repoName, ?_, ?_, rfl⟩
  · intro c hc
    rcases List.mem_append.mp hc with hmem | hmem
    · exact ⟨safe_name_avoids isalnum orgName '/' hslash (by decide) c hmem,
        safe_name_avoids isalnum orgName '\\' hbackslash (by decide) c hmem,
        safe_name_avoids isalnum orgName '.' hdot (by decide) c hmem,
        safe_name_avoids isalnum orgName (Char.ofNat 0) hnul (by decide) c hmem⟩
    · exact ⟨safe_name_avoids isalnum repoName '/' hslash (by decide) c hmem,
        safe_name_avoids isalnum repoName '\\' hbackslash (by decide) c hmem,
        safe_name_avoids isalnum repoName '.' hdot (by decide) c hmem,
        safe_name_avoids isalnum repoName (Char.ofNat 0) hnul (by decide) c hmem⟩
  · refine resolveSegs_no_dotdot _ ?_ _
    intro seg hseg
    simp only [List.mem_cons, List.not_mem_nil, or_false] at hseg
    rcases hseg with hseg | hseg
    · exact hseg ▸ ne_dotdot_of_no_dot _ (safe_name_avoids isalnum orgName '.' hdot (by decide))
    · exact hseg ▸ ne_dotdot_of_no_dot _ (safe_name_avoids isalnum repoName '.' hdot (by decide))

/-- Claim C7 counterexample: the claim states the derived segments contain
only characters from `[A-Za-z0-9_]`.  Python's `str.isalnum` is
Unicode-aware, so the org name `"é"` sanitizes to itself and the resulting
segment contains a character outside `[A-Za-z0-9_]`. -/
theorem c7_safe_path_charset_counterexample :
    safe_name pyIsAlnum "é" = "é" ∧
    (safe_name pyIsAlnum "é").data.all asciiAlnumUnderscore = false := by
  exact ⟨by decide, by decide⟩

/-- Concrete instance of `c7_safe_path_stays_within_clone_root` at the
adversarial inputs named by the claim: a path-traversal org `"../etc"` and a
repo containing a NUL byte and the U+2215 division-slash lookalike; the
resolved path keeps both clone-root components at its bottom. -/
theorem c7_safe_path_stays_within_clone_root_witness :
    ∃ rest, resolveSegs ["analysis_output", "cloned_repos"]
        [safe_name pyIsAlnum "../etc", safe_name pyIsAlnum "a\x00b∕c"]
      = some (["analysis_output", "cloned_repos"] ++ rest) :=
  (c7_safe_path_stays_within_clone_root pyIsAlnum (by decide) (by decide)
    (by decide) (by decide) "../etc" "a\x00b∕c").2.2.2.1

/-- Claim C9 counterexample: the claim states that whenever the scanner
produces no findings, an empty JSON array is written.  A TruffleHog run
finishing with exit code 1 — a "success" code per the claim — and empty
stdout produces no event at all: in particular the `"[]"` write of
analyzer.py line 337 does not happen, because that branch also requires
exit code 0. -/
theorem c9_trufflehog_empty_exit1_counterexample :
    run_trufflehog pyIsAlnum "acme" "foo" "local_repo" (.finished 1 "" "") = [] ∧
    THEvent.wroteResults (trufflehogResultsFile pyIsAlnum "acme" "foo" "local_repo") "[]"
      ∉ run_trufflehog pyIsAlnum "acme" "foo" "local_repo" (.finished 1 "" "") := by
  exact ⟨by decide, by decide⟩

/-- Claim C9 (amended): exit codes 0 and 1 both avoid the unexpected-code
log and every other exit code is logged and non-fatal (the run still writes
its stdout if any); non-empty scanner output is always written; empty output
with exit code 0 writes the empty JSON array; but empty output with any
other exit code — including the "success" code 1 — writes no file.  The
custom regex scanner, by contrast, always writes exactly its findings list,
so an empty JSON array is written whenever it has no findings. -/
theorem c9_scanner_exit_codes_and_empty_findings (isalnum : Char → Bool)
    (orgName repoName scanType : String) (rc : Int) (out err : String) :
    ((THEvent.unexpectedCodeLog rc ∈ run_trufflehog isalnum orgName repoName scanType
        (.finished rc out err)) ↔ (rc ≠ 0 ∧ rc ≠ 1)) ∧
    (out ≠ "" →
      THEvent.wroteResults (trufflehogResultsFile isalnum orgName repoName scanType) out
        ∈ run_trufflehog isalnum orgName repoName scanType (.finished rc out err)) ∧
    (out = "" → rc = 0 →
      run_trufflehog isalnum orgName repoName scanType (.finished rc out err)
        = [THEvent.wroteResults (trufflehogResultsFile isalnum orgName repoName scanType) "[]"]) ∧
    (out = "" → rc ≠ 0 → ∀ file content, THEvent.wroteResults file content
        ∉ run_trufflehog isalnum orgName repoName scanType (.finished rc out err)) ∧
    (∀ (α : Type) (denylist : List String) (maxSize : Int)
        (heur : String → String → List α) (files : List FsFile),
      (run_custom_analyzer_on_path denylist maxSize heur files).writtenPayload
        = (run_custom_analyzer_on_path denylist maxSize heur files).findings) := by
  refine ⟨?_, ?_, ?_, ?_, ?_⟩
  · by_cases h0 : rc = 0 <;> by_cases h1 : rc = 1 <;> by_cases ho : out = "" <;>
      simp [run_trufflehog, h0, h1, ho]
  · intro ho
    by_cases h0 : rc = 0 <;> by_cases h1 : rc = 1 <;>
      simp [run_trufflehog, h0, h1, ho]
  · intro ho h0
    simp [run_trufflehog, h0, ho]
  · intro ho h0 file content
    by_cases h1 : rc = 1 <;> simp [run_trufflehog, h0, h1, ho]
  · intro α denylist maxSize heur files
    by_cases h : (files.foldl (customScanFile denylist maxSize heur) []).isEmpty
    · rw [List.isEmpty_iff] at h
      simp [run_custom_analyzer_on_path, h]
    · simp [run_custom_analyzer_on_path, h]

/-- Concrete instance of `c9_scanner_exit_codes_and_empty_findings`: a
TruffleHog run exiting 0 with empty stdout writes exactly the empty JSON
array to its results file. -/
theorem c9_scanner_exit_codes_and_empty_findings_witness :
    run_trufflehog pyIsAlnum "acme" "foo" "local_repo" (.finished 0 "" "")
      = [THEvent.wroteResults (trufflehogResultsFile pyIsAlnum "acme" "foo" "local_repo") "[]"] :=
  (c9_scanner_exit_codes_and_empty_findings pyIsAlnum "acme" "foo" "local_repo"
    0 "" "").2.2.1 rfl rfl

/-- A finding emitted while scanning one file either was already collected
or comes from a file passing the denylist and size filters with readable,
non-empty content. -/
theorem customScanFile_mem {α : Type} (denylist : List String) (maxSize : Int)
    (heur : String → String → List α) (acc : List α) (f : FsFile) (x : α)
    (hx : x ∈ customScanFile denylist maxSize heur acc f) :
    x ∈ acc ∨
      (denylist.contains (pyLowerAscii (pySplitextExt f.name)) = false ∧
       (maxSize > 0 → ∃ sz, f.size = some sz ∧ sz ≤ maxSize) ∧
       ∃ c, f.content = some c ∧ c ≠ "" ∧ x ∈ heur f.name c) := by
  unfold customScanFile at hx
  split at hx
  · exact .inl hx
  · rename_i hden
    rw [Bool.not_eq_true] at hden
    split at hx
    · rename_i hms
      split at hx
      · exact .inl hx
      · rename_i sz hsz
        split at hx
        · exact .inl hx
        · rename_i hbig
          split at hx
          · exact .inl hx
          · rename_i c hct
            split at hx
            · rename_i hcne
              rcases List.mem_append.mp hx with h | h
              · exact .inl h
              · exact .inr ⟨hden, fun _ => ⟨sz, hsz, by omega⟩, c, hct,
                  by simpa using hcne, h⟩
            · exact .inl hx
    · rename_i hms
      split at hx
      · exact .inl hx
      · rename_i c hct
        split at hx
        · rename_i hcne
          rcases List.mem_append.mp hx with h | h
          · exact .inl h
          · exact .inr ⟨hden, fun hms' => absurd hms' hms, c, hct,
              by simpa using hcne, h⟩
        · exact .inl hx

/-- Fold form of `customScanFile_mem` over a list of files. -/
theorem customScan_foldl_mem {α : Type} (denylist : List String) (maxSize : Int)
    (heur : String → String → List α) (files : List FsFile) :
    ∀ acc x, x ∈ files.foldl (customScanFile denylist maxSize heur) acc →
      x ∈ acc ∨ ∃ f ∈ files,
        denylist.contains (pyLowerAscii (pySplitextExt f.name)) = false ∧
        (maxSize > 0 → ∃ sz, f.size = some sz ∧ sz ≤ maxSize) ∧
        ∃ c, f.content = some c ∧ c ≠ "" ∧ x ∈ heur f.name c := by
  induction files with
  | nil => intro acc x hx; exact .inl hx
  | cons f fs ih =>
    intro acc x hx
    rw [List.foldl_cons] at hx
    rcases ih _ x hx with h | ⟨g, hg, hprop⟩
    · rcases customScanFile_mem denylist maxSize heur acc f x h with h' | hp
      · exact .inl h'
      · exact .inr ⟨f, by simp, hp⟩
    · exact .inr ⟨g, by simp [hg], hprop⟩

/-- Claim C10: every finding the custom regex scanner produces comes from a
file that passed both undocumented filters — its lower-cased extension is
not in `DENYLIST_EXTENSIONS`, and, when `MAX_FILE_SIZE_TO_SCAN_BYTES > 0`,
its stat succeeded with a size within the limit — and whose content was
readable and non-empty. -/
theorem c10_custom_scanner_filters {α : Type} (denylist : List String)
    (maxSize : Int) (heur : String → String → List α) (files : List FsFile) :
    ∀ x ∈ (run_custom_analyzer_on_path denylist maxSize heur files).findings,
      ∃ f ∈ files,
        denylist.contains (pyLowerAscii (pySplitextExt f.name)) = false ∧
        (maxSize > 0 → ∃ sz, f.size = some sz ∧ sz ≤ maxSize) ∧
        ∃ c, f.content = some c ∧ c ≠ "" ∧ x ∈ heur f.name c := by
  intro x hx
  rcases customScan_foldl_mem denylist maxSize heur files [] x hx with h | h
  · cases h
  · exact h

/-- Concrete instance of `c10_custom_scanner_filters`: with denylist
`[".exe"]` and a 100-byte limit, the finding produced for `a.txt` comes from
a file passing both filters (while `b.EXE` and the oversized `big.txt`
contribute nothing). -/
theorem c10_custom_scanner_filters_witness :
    ∃ f ∈ ([⟨"a.txt", some 5, some "hello"⟩, ⟨"b.EXE", some 5, some "x"⟩,
        ⟨"big.txt", some 200, some "y"⟩] : List FsFile),
      [".exe"].contains (pyLowerAscii (pySplitextExt f.name)) = false ∧
      ((100 : Int) > 0 → ∃ sz, f.size = some sz ∧ sz ≤ 100) ∧
      ∃ c, f.content = some c ∧ c ≠ "" ∧
        ("a.txt", "hello") ∈ [(f.name, c)] :=
  c10_custom_scanner_filters [".exe"] 100 (fun n c => [(n, c)])
    [⟨"a.txt", some 5, some "hello"⟩, ⟨"b.EXE", some 5, some "x"⟩,
     ⟨"big.txt", some 200, some "y"⟩] ("a.txt", "hello") (by decide)

/-- The rename/copy reassignment of analyzer.py lines 173-174 always yields
the second tab-separated field. -/
theorem diffOrigPath_eq (status orig0 : String) (parts3 : Bool) :
    diffOrigPath status orig0 parts3 = orig0 := by
  unfold diffOrigPath
  split
  · rfl
  · split <;> rfl

/-- Invariant of the deleted-file walker state: every performed write is
registered in the dedup table, no two writes share a dedup key, and every
write's bytes and output path are the ones its `(commit, parent, original
path)` context dictates. -/
def restoreInv (gitShow : String → RunResult) (outDir : String) (st : RestoreState) : Prop :=
  (∀ w ∈ st.writes, st.seen.contains (w.parent ++ ":" ++ w.origPath) = true) ∧
  (st.writes.map fun w => w.parent ++ ":" ++ w.origPath).Nodup ∧
  (∀ w ∈ st.writes,
    (gitShow (w.parent ++ ":" ++ w.origPath)).okStdout = some w.content ∧
    w.filePath = outDir ++ "/commit_" ++ w.commit ++ "_parent_" ++ w.parent
      ++ "_deleted_" ++ pyReplaceChar '\\' '_' (pyReplaceChar '/' '_' w.origPath))

/-- Step `restoreRecord` preserves the walker invariant: it either skips a key it
has seen, or registers a fresh key and (possibly) appends a write carrying
exactly the bytes and path that key dictates. -/
theorem restoreRecord_inv (gitShow : String → RunResult) (outDir commit parent : String)
    (st : RestoreState) (orig : String) (h : restoreInv gitShow outDir st) :
    restoreInv gitShow outDir (restoreRecord gitShow outDir commit parent st orig) := by
  obtain ⟨h1, h2, h3⟩ := h
  unfold restoreRecord
  split
  · exact ⟨h1, h2, h3⟩
  · rename_i hseen
    have hnotmem : (parent ++ ":" ++ orig)
        ∉ st.writes.map fun w => w.parent ++ ":" ++ w.origPath := by
      intro hmem
      obtain ⟨w, hw, hkey⟩ := List.mem_map.mp hmem
      rw [← hkey] at hseen
      exact hseen (h1 w hw)
    have hcontains : ∀ w ∈ st.writes,
        (st.seen ++ [parent ++ ":" ++ orig]).contains (w.parent ++ ":" ++ w.origPath) = true := by
      intro w hw
      have hmem := List.elem_iff.mp (h1 w hw)
      exact List.elem_iff.mpr (List.mem_append.mpr (.inl hmem))
    split
    · rename_i bytes hshow
      refine ⟨?_, ?_, ?_⟩
      · intro w hw
        rcases List.mem_append.mp hw with hmem | hmem
        · exact hcontains w hmem
        · rw [List.mem_singleton.mp hmem]
          exact List.elem_iff.mpr (List.mem_append.mpr (.inr (List.mem_singleton.mpr rfl)))
      · rw [List.map_append]
        refine List.Nodup.append h2 (by simp) ?_
        intro k hk hk'
        simp only [List.map_cons, List.map_nil, List.mem_singleton] at hk'
        rw [hk'] at hk
        exact hnotmem hk
      · intro w hw
        rcases List.mem_append.mp hw with hmem | hmem
        · exact h3 w hmem
        · rw [List.mem_singleton.mp hmem]
          exact ⟨hshow, rfl⟩
    · exact ⟨hcontains, h2, h3⟩

/-- Step `restoreDiffLine` preserves the walker invariant. -/
theorem restoreDiffLine_inv (gitShow : String → RunResult) (outDir commit parent : String)
    (st : RestoreState) (line : String) (h : restoreInv gitShow outDir st) :
    restoreInv gitShow outDir (restoreDiffLine gitShow outDir commit parent st line) := by
  unfold restoreDiffLine
  split
  · exact h
  · split
    · split
      · exact restoreRecord_inv gitShow outDir commit parent st _ h
      · exact h
    · exact h

/-- A fold of an invariant-preserving step preserves the invariant. -/
theorem foldl_preserves {β : Type} (P : RestoreState → Prop)
    (f : RestoreState → β → RestoreState) (hf : ∀ st b, P st → P (f st b)) :
    ∀ (l : List β) (st : RestoreState), P st → P (l.foldl f st) := by
  intro l
  induction l with
  | nil => intro st h; exact h
  | cons b bs ih =>
    intro st h
    rw [List.foldl_cons]
    exact ih _ (hf st b h)

/-- Step `restoreParent` preserves the walker invariant. -/
theorem restoreParent_inv (diffOf : String → String → RunResult)
    (gitShow : String → RunResult) (outDir commit : String)
    (st : RestoreState) (parent : String) (h : restoreInv gitShow outDir st) :
    restoreInv gitShow outDir (restoreParent diffOf gitShow outDir commit st parent) := by
  unfold restoreParent
  split
  · exact h
  · exact foldl_preserves _ _ (restoreDiffLine_inv gitShow outDir commit parent) _ st h

/-- Step `restoreCommit` preserves the walker invariant. -/
theorem restoreCommit_inv (parentsOf : String → RunResult)
    (diffOf : String → String → RunResult) (gitShow : String → RunResult)
    (outDir : String) (st : RestoreState) (commit : String)
    (h : restoreInv gitShow outDir st) :
    restoreInv gitShow outDir
      (restoreCommit parentsOf diffOf gitShow outDir st commit) := by
  unfold restoreCommit
  split
  · exact h
  · split
    · split
      · split
        · exact h
        · exact foldl_preserves _ _
            (fun st' p => restoreParent_inv diffOf gitShow outDir commit st' p) _ st h
      · exact h
    · exact h

/-- The final state of the deleted-file walker satisfies the invariant. -/
theorem restore_deleted_files_inv (revList : RunResult)
    (parentsOf : String → RunResult) (diffOf : String → String → RunResult)
    (gitShow : String → RunResult) (outDir : String) :
    restoreInv gitShow outDir
      (restore_deleted_files_in_repo revList parentsOf diffOf gitShow outDir) := by
  unfold restore_deleted_files_in_repo
  have hinit : restoreInv gitShow outDir ⟨[], []⟩ := by
    refine ⟨?_, ?_, ?_⟩ <;> simp [restoreInv]
  split
  · exact hinit
  · exact foldl_preserves _ _
      (fun st c => restoreCommit_inv parentsOf diffOf gitShow outDir st c) _ _ hinit

/-- In a list whose mapped keys are pairwise distinct, at most one element
matches any given key-determining predicate. -/
theorem length_filter_le_one_of_nodup_keys (l : List RestoredWrite)
    (hnd : (l.map fun w => w.parent ++ ":" ++ w.origPath).Nodup) (p o : String) :
    (l.filter fun w => w.parent == p && w.origPath == o).length ≤ 1 := by
  induction l with
  | nil => simp
  | cons w ws ih =>
    rw [List.map_cons, List.nodup_cons] at hnd
    rw [List.filter_cons]
    by_cases hw : (w.parent == p && w.origPath == o) = true
    · rw [if_pos hw]
      have hnil : (ws.filter fun w' => w'.parent == p && w'.origPath == o) = [] := by
        rw [List.filter_eq_nil_iff]
        intro w' hw' hmatch
        refine hnd.1 ?_
        simp only [Bool.and_eq_true, beq_iff_eq] at hw hmatch
        rw [List.mem_map]
        exact ⟨w', hw', by rw [hmatch.1, hmatch.2, hw.1, hw.2]⟩
      rw [hnil]
      exact Nat.le_refl 1
    · rw [if_neg hw]
      exact ih hnd.2

/-- Claim C6: in one run over one repository, the deleted-file recovery
writes at most one output file per distinct `(parent_sha, original_path)`
pair, and every write's bytes are exactly what `git show parent:path`
produced for the left-side path of its diff entry — the content as of the
parent commit — written to the path built from the sanitized original
path. -/
theorem c6_restore_dedup_and_content (revList : RunResult)
    (parentsOf : String → RunResult) (diffOf : String → String → RunResult)
    (gitShow : String → RunResult) (outDir : String) :
    (∀ p o, ((restore_deleted_files_in_repo revList parentsOf diffOf gitShow
        outDir).writes.filter fun w => w.parent == p && w.origPath == o).length ≤ 1) ∧
    (∀ w ∈ (restore_deleted_files_in_repo revList parentsOf diffOf gitShow outDir).writes,
      (gitShow (w.parent ++ ":" ++ w.origPath)).okStdout = some w.content ∧
      w.filePath = outDir ++ "/commit_" ++ w.commit ++ "_parent_" ++ w.parent
        ++ "_deleted_" ++ pyReplaceChar '\\' '_' (pyReplaceChar '/' '_' w.origPath)) := by
  obtain ⟨h1, h2, h3⟩ := restore_deleted_files_inv revList parentsOf diffOf gitShow outDir
  exact ⟨fun p o => length_filter_le_one_of_nodup_keys _ h2 p o, h3⟩

/-- Concrete instance of `c6_restore_dedup_and_content`: a two-line diff
deleting `secret.txt` between parent `p1` and commit `c1` yields a write
whose bytes are the blob `git show p1:secret.txt` returned, and at most one
write exists for `(p1, secret.txt)`. -/
theorem c6_restore_dedup_and_content_witness :
    ((fun spec => if spec = "p1:secret.txt" then RunResult.completed 0 "KEY" ""
        else RunResult.none_) ("p1" ++ ":" ++ "secret.txt")).okStdout = some "KEY" ∧
    ((restore_deleted_files_in_repo (.completed 0 "c1\n" "")
        (fun _ => .completed 0 "p1" "")
        (fun _ _ => .completed 0 "D\tsecret.txt\nM\tother.txt" "")
        (fun spec => if spec = "p1:secret.txt" then RunResult.completed 0 "KEY" ""
          else RunResult.none_)
        "out").writes.filter fun w => w.parent == "p1" && w.origPath == "secret.txt").length
      ≤ 1 := by
  have h := c6_restore_dedup_and_content (.completed 0 "c1\n" "")
    (fun _ => .completed 0 "p1" "")
    (fun _ _ => .completed 0 "D\tsecret.txt\nM\tother.txt" "")
    (fun spec => if spec = "p1:secret.txt" then RunResult.completed 0 "KEY" ""
      else RunResult.none_)
    "out"
  refine ⟨?_, h.1 "p1" "secret.txt"⟩
  exact (h.2 ⟨"c1", "p1", "secret.txt",
    "out/commit_c1_parent_p1_deleted_secret.txt", "KEY"⟩ (by decide)).1

/-- A list is a prefix of itself followed by anything. -/
theorem hasPrefixList_append (p rest : List Char) :
    hasPrefixList p (p ++ rest) = true := by
  induction p with
  | nil => rfl
  | cons a as ih => simp [hasPrefixList, ih]

/-- A prefix is in particular a substring. -/
theorem hasSubstringList_intro (s sub : List Char)
    (h : hasPrefixList sub s = true) : hasSubstringList s sub = true := by
  cases s with
  | nil => exact h
  | cons c cs => simp [hasSubstringList, h]

/-- Splitting a whitespace-free word followed by a space flushes the word
(together with the pending accumulator) as one field. -/
theorem splitWsAux_word (w : List Char) :
    ∀ (acc rest : List Char), (∀ c ∈ w, c.isWhitespace = false) →
      (acc ≠ [] ∨ w ≠ []) →
      splitWsAux (w ++ ' ' :: rest) acc
        = String.mk (acc.reverse ++ w) :: splitWsAux rest [] := by
  induction w with
  | nil =>
    intro acc rest _ hne
    have hacc : acc ≠ [] := hne.resolve_right (fun h => h rfl)
    have hacc' : acc.isEmpty = false := by
      cases acc with
      | nil => exact absurd rfl hacc
      | cons a as => rfl
    simp [splitWsAux, hacc']
  | cons c w' ih =>
    intro acc rest hws hne
    have hc : c.isWhitespace = false := hws c (by simp)
    have hstep : splitWsAux ((c :: w') ++ ' ' :: rest) acc
        = splitWsAux (w' ++ ' ' :: rest) (c :: acc) := by
      simp [splitWsAux, hc]
    rw [hstep, ih (c :: acc) rest (fun d hd => hws d (by simp [hd])) (.inl (by simp))]
    simp

/-- Splitting a trailing whitespace-free word flushes it as the last
field. -/
theorem splitWsAux_final (w : List Char) :
    ∀ acc, (∀ c ∈ w, c.isWhitespace = false) → (acc ≠ [] ∨ w ≠ []) →
      splitWsAux w acc = [String.mk (acc.reverse ++ w)] := by
  induction w with
  | nil =>
    intro acc _ hne
    have hacc : acc ≠ [] := hne.resolve_right (fun h => h rfl)
    have hacc' : acc.isEmpty = false := by
      cases acc with
      | nil => exact absurd rfl hacc
      | cons a as => rfl
    simp [splitWsAux, hacc']
  | cons c w' ih =>
    intro acc hws _
    have hc : c.isWhitespace = false := hws c (by simp)
    have hstep : splitWsAux (c :: w') acc = splitWsAux w' (c :: acc) := by
      simp [splitWsAux, hc]
    rw [hstep, ih (c :: acc) (fun d hd => hws d (by simp [hd])) (.inl (by simp))]
    simp

/-- A non-empty string has a non-empty character list. -/
theorem data_ne_nil (s : String) (h : s ≠ "") : s.data ≠ [] :=
  fun hd => h (congrArg String.mk hd)

/-- Splitting `"unreachable blob <sha>"` on whitespace is the three fields the fsck parser
expects, for any whitespace-free non-empty `sha`. -/
theorem pySplitWs_unreachable_line (sha : String) (hne : sha ≠ "")
    (hws : ∀ c ∈ sha.data, c.isWhitespace = false) :
    pySplitWs ("unreachable blob " ++ sha) = ["unreachable", "blob", sha] := by
  unfold pySplitWs
  have hdata : ("unreachable blob " ++ sha).data
      = "unreachable".data ++ ' ' :: ("blob".data ++ ' ' :: sha.data) := rfl
  rw [hdata]
  rw [splitWsAux_word "unreachable".data [] _ (by decide) (.inr (by decide))]
  rw [splitWsAux_word "blob".data [] _ (by decide) (.inr (by decide))]
  rw [splitWsAux_final sha.data [] hws (.inr (data_ne_nil sha hne))]
  simp

/-- The fsck line parser extracts the SHA from a well-formed
`unreachable blob <sha>` line. -/
theorem fsckLineSha_unreachable (sha : String) (hne : sha ≠ "")
    (hws : ∀ c ∈ sha.data, c.isWhitespace = false) :
    fsckLineSha ("unreachable blob " ++ sha) = some sha := by
  have hcont : pyContains ("unreachable blob " ++ sha) "unreachable blob" = true := by
    unfold pyContains
    have hdata : ("unreachable blob " ++ sha).data
        = "unreachable blob".data ++ (' ' :: sha.data) := rfl
    rw [hdata]
    exact hasSubstringList_intro _ _ (hasPrefixList_append _ _)
  unfold fsckLineSha
  rw [if_pos hcont, pySplitWs_unreachable_line sha hne hws]

/-- Unpacking `RunResult.okStdout = some c`. -/
theorem okStdout_eq_some (r : RunResult) (c : String) (h : r.okStdout = some c) :
    ∃ rc err, r = .completed rc c err ∧ (rc == 0 && c != "") = true := by
  cases r with
  | completed rc out err =>
    simp only [RunResult.okStdout] at h
    split at h
    · rename_i hcond
      obtain rfl : out = c := by injection h
      exact ⟨rc, err, rfl, hcond⟩
    · exact Option.noConfusion h
  | timedOut => simp [RunResult.okStdout] at h
  | none_ => simp [RunResult.okStdout] at h

/-- Soundness of the cat-file loop (analyzer.py lines 293-303): every blob
write targets `{sha}.blob` under the output directory and carries exactly
the bytes `git cat-file -p sha` produced, for a SHA from the input list. -/
theorem catBlobEvents_sound (catFile : String → RunResult) (outDir : String) :
    ∀ (shas : List String) (sha path content : String),
      BlobEvent.writeBlob sha path content ∈ catBlobEvents catFile outDir shas →
      path = outDir ++ "/" ++ sha ++ ".blob" ∧
      (catFile sha).okStdout = some content ∧ sha ∈ shas := by
  intro shas
  induction shas with
  | nil => intro sha path content h; cases h
  | cons s rest ih =>
    intro sha path content h
    unfold catBlobEvents at h
    split at h
    · rename_i rc out err heq
      rcases List.mem_append.mp h with hl | hr
      · split at hl
        · rename_i hcond
          rw [List.mem_singleton] at hl
          injection hl with h1 h2 h3
          subst h1; subst h2; subst h3
          refine ⟨rfl, ?_, by simp⟩
          rw [heq]
          simp only [RunResult.okStdout]
          rw [if_pos hcond]
        · rw [List.mem_singleton] at hl
          cases hl
      · obtain ⟨hp, hok, hmem⟩ := ih sha path content hr
        exact ⟨hp, hok, by simp [hmem]⟩
    · rw [List.mem_singleton] at h
      cases h
    · obtain ⟨hp, hok, hmem⟩ := ih sha path content h
      exact ⟨hp, hok, by simp [hmem]⟩

/-- Completeness of the cat-file loop: when no cat-file call times out,
every listed SHA whose cat-file succeeded with non-empty output gets its
blob written. -/
theorem catBlobEvents_complete (catFile : String → RunResult) (outDir : String)
    (hnt : ∀ s, catFile s ≠ .timedOut) :
    ∀ (shas : List String) (sha content : String), sha ∈ shas →
      (catFile sha).okStdout = some content →
      BlobEvent.writeBlob sha (outDir ++ "/" ++ sha ++ ".blob") content
        ∈ catBlobEvents catFile outDir shas := by
  intro shas
  induction shas with
  | nil => intro sha content h; cases h
  | cons s rest ih =>
    intro sha content hmem hok
    unfold catBlobEvents
    rcases List.mem_cons.mp hmem with heq | hmem'
    · subst heq
      obtain ⟨rc, err, hceq, hcond⟩ := okStdout_eq_some _ _ hok
      rw [hceq]
      show BlobEvent.writeBlob sha (outDir ++ "/" ++ sha ++ ".blob") content
        ∈ (if (rc == 0 && content != "") = true
            then [BlobEvent.writeBlob sha (outDir ++ "/" ++ sha ++ ".blob") content]
            else [BlobEvent.logCatError sha]) ++ catBlobEvents catFile outDir rest
      rw [if_pos hcond]
      exact List.mem_append.mpr (.inl (List.mem_singleton.mpr rfl))
    · cases hs : catFile s with
      | completed rc out err =>
        show BlobEvent.writeBlob sha (outDir ++ "/" ++ sha ++ ".blob") content
          ∈ (if (rc == 0 && out != "") = true
              then [BlobEvent.writeBlob s (outDir ++ "/" ++ s ++ ".blob") out]
              else [BlobEvent.logCatError s]) ++ catBlobEvents catFile outDir rest
        exact List.mem_append.mpr (.inr (ih sha content hmem' hok))
      | timedOut => exact absurd hs (hnt s)
      | none_ =>
        show BlobEvent.writeBlob sha (outDir ++ "/" ++ sha ++ ".blob") content
          ∈ catBlobEvents catFile outDir rest
        exact ih sha content hmem' hok

/-- Definitional reduction of the extractor at a completed `find` result. -/
theorem extract_completed_eq (rc : Int) (out err : String) (fsck : RunResult)
    (catFile : String → RunResult) (outDir : String) :
    extract_dangling_blobs_in_repo (.completed rc out err) fsck catFile outDir
      = if rc == 0 && out != "" then
          extractAfterPacks (((pySplitChar '\n' (pyStrip out)).filter
            (fun q => q != "")).map (fun q => BlobEvent.unpack (pyStrip q)))
            fsck catFile outDir
        else extractAfterPacks [] fsck catFile outDir := rfl

/-- Every blob-write event of the extractor comes from the cat-file phase:
its path is `{sha}.blob`, its bytes are the cat-file output, and its SHA was
parsed out of a successful fsck run with non-empty output. -/
theorem extract_writes_sound (findPacks fsck : RunResult)
    (catFile : String → RunResult) (outDir : String)
    (sha path content : String)
    (h : BlobEvent.writeBlob sha path content
      ∈ extract_dangling_blobs_in_repo findPacks fsck catFile outDir) :
    path = outDir ++ "/" ++ sha ++ ".blob" ∧
    (catFile sha).okStdout = some content ∧
    ∃ rc fsckOut err, fsck = .completed rc fsckOut err ∧ rc = 0 ∧ fsckOut ≠ "" ∧
      sha ∈ danglingBlobShas fsckOut := by
  have hafter : ∀ (unpacks : List BlobEvent),
      (∀ e ∈ unpacks, ∃ p, e = BlobEvent.unpack p) →
      BlobEvent.writeBlob sha path content
          ∈ extractAfterPacks unpacks fsck catFile outDir →
      path = outDir ++ "/" ++ sha ++ ".blob" ∧
      (catFile sha).okStdout = some content ∧
      ∃ rc fsckOut err, fsck = .completed rc fsckOut err ∧ rc = 0 ∧ fsckOut ≠ "" ∧
        sha ∈ danglingBlobShas fsckOut := by
    intro unpacks hup hmem
    unfold extractAfterPacks at hmem
    rcases List.mem_append.mp hmem with hl | hr
    · obtain ⟨p, hp⟩ := hup _ hl
      exact BlobEvent.noConfusion hp
    · rcases List.mem_cons.mp hr with hfk | htail
      · exact BlobEvent.noConfusion hfk
      · split at htail
        · rename_i x rc out err
          split at htail
          · exact absurd htail (List.not_mem_nil _)
          · rename_i hcond
            simp only [Bool.or_eq_true, not_or, bne_iff_ne, ne_eq, Decidable.not_not,
              beq_iff_eq] at hcond
            obtain ⟨hp, hok, hsha⟩ := catBlobEvents_sound catFile outDir _ sha path content htail
            exact ⟨hp, hok, rc, out, err, rfl, by omega, hcond.2, hsha⟩
        · rw [List.mem_singleton] at htail
          exact BlobEvent.noConfusion htail
        · exact absurd htail (List.not_mem_nil _)
  unfold extract_dangling_blobs_in_repo at h
  split at h
  · rw [List.mem_singleton] at h
    exact BlobEvent.noConfusion h
  · exact hafter [] (by simp) h
  · split at h
    · refine hafter _ ?_ h
      intro e he
      obtain ⟨p, _, hpe⟩ := List.mem_map.mp he
      exact ⟨_, hpe.symm⟩
    · exact hafter [] (by simp) h

/-- Claim C8: the (second, overriding) dangling-blob extractor first issues
one unpack command per pack file `find` listed under `.git/objects/pack` and
only then runs `git fsck`; every blob write targets `{sha}.blob` in the
per-repo dangling output directory and carries exactly the raw bytes
`git cat-file -p <sha>` produced; at most one file per SHA is materialized
(all writes for a SHA share one path and one byte content); and every
well-formed `unreachable blob <sha>` line of a successful fsck run whose
cat-file call succeeds with non-empty output gets its blob written, provided
no cat-file timeout aborts the loop. -/
theorem c8_dangling_blob_extraction (findPacks fsck : RunResult)
    (catFile : String → RunResult) (outDir : String) :
    (findPacks ≠ .timedOut → ∃ (packs : List String) (rest : List BlobEvent),
      extract_dangling_blobs_in_repo findPacks fsck catFile outDir
        = packs.map BlobEvent.unpack ++ BlobEvent.fsckRun :: rest) ∧
    (∀ rc out err, findPacks = .completed rc out err → rc = 0 → out ≠ "" →
      ∀ p ∈ (pySplitChar '\n' (pyStrip out)).filter (fun q => q != ""),
        BlobEvent.unpack (pyStrip p)
          ∈ extract_dangling_blobs_in_repo findPacks fsck catFile outDir) ∧
    (∀ sha path content,
      BlobEvent.writeBlob sha path content
          ∈ extract_dangling_blobs_in_repo findPacks fsck catFile outDir →
        path = outDir ++ "/" ++ sha ++ ".blob" ∧
        (catFile sha).okStdout = some content) ∧
    (∀ sha p1 c1 p2 c2,
      BlobEvent.writeBlob sha p1 c1
          ∈ extract_dangling_blobs_in_repo findPacks fsck catFile outDir →
      BlobEvent.writeBlob sha p2 c2
          ∈ extract_dangling_blobs_in_repo findPacks fsck catFile outDir →
      p1 = p2 ∧ c1 = c2) ∧
    (∀ fsckOut err sha content, fsck = .completed 0 fsckOut err →
      findPacks ≠ .timedOut → (∀ s, catFile s ≠ .timedOut) →
      ("unreachable blob " ++ sha) ∈ pySplitChar '\n' (pyStrip fsckOut) →
      sha ≠ "" → (∀ ch ∈ sha.data, ch.isWhitespace = false) →
      (catFile sha).okStdout = some content →
      BlobEvent.writeBlob sha (outDir ++ "/" ++ sha ++ ".blob") content
        ∈ extract_dangling_blobs_in_repo findPacks fsck catFile outDir) := by
  refine ⟨?_, ?_, ?_, ?_, ?_⟩
  · intro hfp
    cases findPacks with
    | timedOut => exact absurd rfl hfp
    | none_ => exact ⟨[], _, rfl⟩
    | completed rc out err =>
      by_cases hc : (rc == 0 && out != "") = true
      · rw [extract_completed_eq, if_pos hc]
        have hmm : ((pySplitChar '\n' (pyStrip out)).filter (fun q => q != "")).map
              (fun q => BlobEvent.unpack (pyStrip q))
            = (((pySplitChar '\n' (pyStrip out)).filter (fun q => q != "")).map
                pyStrip).map BlobEvent.unpack := by
          rw [List.map_map]
          rfl
        rw [hmm]
        exact ⟨_, _, rfl⟩
      · rw [extract_completed_eq, if_neg hc]
        exact ⟨[], _, rfl⟩
  · intro rc out err hfp h0 hout p hp
    have hc : (rc == 0 && out != "") = true := by
      simp [h0, hout]
    rw [hfp, extract_completed_eq, if_pos hc]
    unfold extractAfterPacks
    exact List.mem_append.mpr (.inl (List.mem_map.mpr ⟨p, hp, rfl⟩))
  · intro sha path content h
    obtain ⟨hp, hok, _⟩ := extract_writes_sound findPacks fsck catFile outDir sha path content h
    exact ⟨hp, hok⟩
  · intro sha p1 c1 p2 c2 h1 h2
    obtain ⟨hp1, hok1, _⟩ := extract_writes_sound findPacks fsck catFile outDir sha p1 c1 h1
    obtain ⟨hp2, hok2, _⟩ := extract_writes_sound findPacks fsck catFile outDir sha p2 c2 h2
    exact ⟨hp1.trans hp2.symm, Option.some.inj (hok1.symm.trans hok2)⟩
  · intro fsckOut err sha content hfsck hfp hnt hline hne hws hok
    have hout : fsckOut ≠ "" := by
      intro h0
      have hval : pySplitChar '\n' (pyStrip "") = [""] := by decide
      rw [h0, hval] at hline
      have heq := List.mem_singleton.mp hline
      have hd := congrArg String.data heq
      rw [String.data_append, show ("" : String).data = ([] : List Char) from rfl] at hd
      exact (by decide : "unreachable blob ".data ≠ ([] : List Char))
        (List.append_eq_nil.mp hd).1
    have hsha : sha ∈ danglingBlobShas fsckOut :=
      List.mem_filterMap.mpr ⟨_, hline, fsckLineSha_unreachable sha hne hws⟩
    have hcat := catBlobEvents_complete catFile outDir hnt (danglingBlobShas fsckOut)
      sha content hsha hok
    have hafter : ∀ unpacks,
        BlobEvent.writeBlob sha (outDir ++ "/" ++ sha ++ ".blob") content
          ∈ extractAfterPacks unpacks fsck catFile outDir := by
      intro unpacks
      unfold extractAfterPacks
      refine List.mem_append.mpr (.inr (List.mem_cons.mpr (.inr ?_)))
      rw [hfsck]
      show BlobEvent.writeBlob sha (outDir ++ "/" ++ sha ++ ".blob") content
        ∈ if ((0 : Int) != 0 || fsckOut == "") = true then []
          else catBlobEvents catFile outDir (danglingBlobShas fsckOut)
      rw [if_neg (by simp [hout])]
      exact hcat
    cases findPacks with
    | timedOut => exact absurd rfl hfp
    | none_ => exact hafter []
    | completed rc out err2 =>
      by_cases hc : (rc == 0 && out != "") = true
      · rw [extract_completed_eq, if_pos hc]
        exact hafter _
      · rw [extract_completed_eq, if_neg hc]
        exact hafter []

/-- Concrete instance of `c8_dangling_blob_extraction`: an fsck run listing
one unreachable blob `abc123` whose cat-file produces `SECRET` writes those
bytes to `out/abc123.blob`. -/
theorem c8_dangling_blob_extraction_witness :
    BlobEvent.writeBlob "abc123" ("out" ++ "/" ++ "abc123" ++ ".blob") "SECRET"
      ∈ extract_dangling_blobs_in_repo (.completed 0 ".git/objects/pack/p1.pack\n" "")
          (.completed 0 "unreachable blob abc123\n" "")
          (fun sha => if sha = "abc123" then .completed 0 "SECRET" "" else .none_)
          "out" := by
  refine (c8_dangling_blob_extraction (.completed 0 ".git/objects/pack/p1.pack\n" "")
    (.completed 0 "unreachable blob abc123\n" "")
    (fun sha => if sha = "abc123" then .completed 0 "SECRET" "" else .none_)
    "out").2.2.2.2 "unreachable blob abc123\n" "" "abc123" "SECRET" rfl
    (by decide) ?_ (by decide) (by decide) (by decide) (by decide)
  intro s
  by_cases hs : s = "abc123" <;> simp [hs]

end Escaped
